import Mathlib

/-! Verification of the nhp-dwiproc per-subject diffusion-MRI derivative core.

Shallow embedding of the numeric kernels and stage logic of
`src/nhp_dwiproc/lib/dwi.py`, `src/nhp_dwiproc/app/utils.py`,
`src/nhp_dwiproc/workflow/diffusion/preprocess/denoise.py` and
`src/nhp_dwiproc/workflow/diffusion/tractography.py`.

Python strings are embedded as Lean `String` (or `List Char` where
character-level indexing matters), numpy float arithmetic as exact `ℚ`
arithmetic, numpy arrays as lists or `Matrix` over `ℚ`, filesystem paths
as component lists with an absolute-root flag, and raised exceptions as
`Except.error` values. -/

namespace NhpDwiproc

/-- Embeds `get_pe_indices` (lib/dwi.py lines 88-106).  `pe_dirs` is the
ordered list of phase-encode direction labels; `ax.data.head?` embeds the
Python `ax[0]` lookup (every real label is non-empty).  The Python code
branches on `len(set(pe_dirs)) > 1`, collects 1-based positional index
strings for the `i`-axis (LR) and `j`-axis (AP) acquisitions, and returns
the LR list when its value set has exactly two members, the AP list
otherwise; with all-identical labels it returns `["1"] * len(pe_dirs)`. -/
def get_pe_indices (pe_dirs : List String) : List String :=
  let axe : List (Option Char) := pe_dirs.map (fun ax => ax.data.head?)
  if pe_dirs.dedup.length > 1 then
    let lr := axe.enum.filterMap
      (fun p => if p.2 = some 'i' then some (toString (p.1 + 1)) else none)
    let ap := axe.enum.filterMap
      (fun p => if p.2 = some 'j' then some (toString (p.1 + 1)) else none)
    if lr.dedup.length = 2 then lr else ap
  else
    List.replicate axe.length "1"

/-- Modelled from the spec wording for claim C1: the 1-based positional
indices (as strings) of the acquisitions whose axis letter is `i`. -/
def lrIndices (pe_dirs : List String) : List String :=
  pe_dirs.enum.filterMap
    (fun p => if p.2.data.head? = some 'i' then some (toString (p.1 + 1)) else none)

/-- Modelled from the spec wording for claim C1: the 1-based positional
indices (as strings) of the acquisitions whose axis letter is `j`. -/
def apIndices (pe_dirs : List String) : List String :=
  pe_dirs.enum.filterMap
    (fun p => if p.2.data.head? = some 'j' then some (toString (p.1 + 1)) else none)

/-- Spec-side predicate for claim C1: all direction labels are identical. -/
def allSame (l : List String) : Bool :=
  match l with
  | [] => true
  | x :: xs => xs.all (· == x)

/-- Frame count of one acquisition, from its image shape: images with fewer
than 4 dimensions contribute a single frame, 4-D images contribute their
fourth dimension (`imsize[3]`). -/
def frameCount (imsize : List Nat) : Nat :=
  if imsize.length < 4 then 1 else imsize.getD 3 0

/-- One element of the Python list `eddy_idxes` (lib/dwi.py lines 118-121):
a bare index string for an image with fewer than 4 dimensions, a replicated
string list for a 4-D image. -/
inductive EddyEntry where
  | scalar (s : String)
  | arr (l : List String)
deriving DecidableEq

/-- The index strings held by one `eddy_idxes` element. -/
def entryList : EddyEntry → List String
  | EddyEntry.scalar s => [s]
  | EddyEntry.arr l => l

/-- Nesting shape of one `eddy_idxes` element as `np.array` sees it:
`none` for a bare scalar, the inner length for a nested list. -/
def entryShape : EddyEntry → Option Nat
  | EddyEntry.scalar _ => none
  | EddyEntry.arr l => some l.length

/-- Embeds `np.array(eddy_idxes).flatten()` (lib/dwi.py line 129).
`np.array` only builds a rectangular array when every element has the same
nesting shape (all scalars, or all lists of one common length); `flatten`
then yields the row-major concatenation.  On inhomogeneous input `np.array`
raises `ValueError` (inhomogeneous shape), embedded as `none`. -/
def npArrayFlatten (entries : List EddyEntry) : Option (List String) :=
  match entries with
  | [] => some []
  | e0 :: rest =>
    if rest.all (fun e => entryShape e = entryShape e0) then
      some (((e0 :: rest).map entryList).flatten)
    else none

/-- Per-acquisition emission of `get_eddy_indices` (lib/dwi.py lines
118-121): `idx if len(imsize) < 4 else [idx] * imsize[3]`. -/
def eddyEmitEntry (idx : String) (imsize : List Nat) : EddyEntry :=
  if imsize.length < 4 then EddyEntry.scalar idx
  else EddyEntry.arr (List.replicate (imsize.getD 3 0) idx)

/-- Nesting shape contributed by one acquisition's image size. -/
def emitShape (imsize : List Nat) : Option Nat :=
  if imsize.length < 4 then none else some (imsize.getD 3 0)

/-- Embeds `get_eddy_indices` (lib/dwi.py lines 109-131) up to the sequence
written by `np.savetxt(..., np.array(eddy_idxes).flatten())`.  `imsizes`
are the data shapes of the loaded volumes.  `indices or
["1"] * len(imsizes)` is Python truthiness: both `None` and an empty list
fall back to the all-ones default; `zip` then pairs indices with shapes,
and the `np.array`/`flatten` step succeeds only on shape-homogeneous
emissions. -/
def get_eddy_indices (imsizes : List (List Nat)) (indices : Option (List String)) :
    Option (List String) :=
  let idxs := match indices with
    | none => List.replicate imsizes.length "1"
    | some l => if l.isEmpty then List.replicate imsizes.length "1" else l
  npArrayFlatten ((idxs.zip imsizes).map (fun p => eddyEmitEntry p.1 p.2))

/-- Embeds the `possible_vecs` dictionary of `get_phenc_info` (lib/dwi.py
lines 26-31); a missing key (Python `KeyError`) is `none`. -/
def possible_vecs (c : Char) : Option (List Int) :=
  if c = 'i' then some [1, 0, 0]
  else if c = 'j' then some [0, 1, 0]
  else if c = 'k' then some [0, 0, 1]
  else none

/-- Embeds `pe_vec[np.where(pe_vec > 0)] = -1` (lib/dwi.py line 33): every
strictly positive entry is overwritten with `-1`. -/
def negate_pos (v : List Int) : List Int :=
  v.map (fun x => if x > 0 then -1 else x)

/-- Embeds lines 36-40 of `get_phenc_info`: `np.where(np.abs(pe_vec) > 0)`
selects the indices of the nonzero components, fancy indexing reads the
image shape at those indices (out-of-range indexing raises, hence `none`),
and `np.hstack` appends `eff_echo * num_phase_encodes` to the vector. -/
def phenc_row (pe_vec : List Int) (img_size : List Nat) (eff_echo : ℚ) :
    Option (List ℚ) :=
  let sel := pe_vec.enum.filterMap
    (fun p => if p.2.natAbs > 0 then some p.1 else none)
  if sel.all (· < img_size.length) then
    some (pe_vec.map (fun x => (x : ℚ)) ++
      sel.map (fun i => eff_echo * (img_size.getD i 0 : ℚ)))
  else none

/-- Embeds the vector/readout computation of `get_phenc_info` (lib/dwi.py
lines 14-42).  `pe_dir` is the direction label as a character list
(`pe_dir[0]` on an empty string raises, hence `none`); the sign is negated
when `len(pe_dir) == 2 and pe_dir.endswith("-")`.  Metadata resolution and
file loading are external collaborators: `img_size` and `eff_echo` are
passed in resolved. -/
def get_phenc_info (pe_dir : List Char) (img_size : List Nat) (eff_echo : ℚ) :
    Option (List ℚ) :=
  match pe_dir with
  | [] => none
  | c :: _ =>
    match possible_vecs c with
    | none => none
    | some v0 =>
      let pe_vec :=
        if pe_dir.length = 2 ∧ pe_dir.getLast? = some '-' then negate_pos v0 else v0
      phenc_row pe_vec img_size eff_echo

/-- Direction label built from an axis letter and an optional trailing
sign marker, covering the six labels `i`, `j`, `k`, `i-`, `j-`, `k-`. -/
def dirLabel (c : Char) (neg : Bool) : List Char :=
  if neg then [c, '-'] else [c]

/-- Axis position named by a direction letter: `i` is x (0), `j` is y (1),
`k` is z (2). -/
def axisIdx (c : Char) : Nat :=
  if c = 'i' then 0 else if c = 'j' then 1 else 2

/-- Configuration value: the denoise stage reads boolean flags and strings
from the flat dotted-key Config mapping. -/
inductive CfgVal where
  | bool (b : Bool)
  | str (s : String)
deriving DecidableEq

/-- The flat Config mapping, embedded as an association list from dotted
option keys to values. -/
abbrev Cfg := List (String × CfgVal)

/-- Lookup of a Config key. -/
def cfgLookup (cfg : Cfg) (k : String) : Option CfgVal :=
  match cfg with
  | [] => none
  | (k', v) :: rest => if k' = k then some v else cfgLookup rest k

/-- Assignment `cfg[k] = v`, overwriting an existing binding in place and
appending a fresh binding otherwise. -/
def cfgSet (cfg : Cfg) (k : String) (v : CfgVal) : Cfg :=
  match cfg with
  | [] => [(k, v)]
  | (k', v') :: rest => if k' = k then (k, v) :: rest else (k', v') :: cfgSet rest k v

/-- The dotted Config key written by the denoise stage. -/
def skipKey : String := "participant.preprocess.denoise.skip"

/-- Embeds the control flow of `denoise` (preprocess/denoise.py lines
14-55).  `bval` is the loaded b-value table.  When fewer than 30 entries are
nonzero the stage writes `cfg["participant.preprocess.denoise.skip"] = True`;
it then returns the input volume untouched whenever that flag is truthy,
and otherwise invokes the external `mrtrix.dwidenoise` kernel and returns
its output.  The result is `(returned volume, kernel invoked?, Config after
the call)`; the kernel itself is an external collaborator, so its output
path `denoisedOut` is a parameter. -/
def denoise (bval : List ℚ) (cfg : Cfg) (inputNii denoisedOut : String) :
    String × Bool × Cfg :=
  let cfg1 :=
    if (bval.filter (· ≠ 0)).length < 30 then cfgSet cfg skipKey (CfgVal.bool true)
    else cfg
  if cfgLookup cfg1 skipKey = some (CfgVal.bool true) then (inputNii, false, cfg1)
  else (denoisedOut, true, cfg1)

/-- The Config state after the direction-count gate of `denoise`
(preprocess/denoise.py lines 22-25), named for reuse in proofs. -/
def denoiseCfg1 (bval : List ℚ) (cfg : Cfg) : Cfg :=
  if (bval.filter (· ≠ 0)).length < 30 then cfgSet cfg skipKey (CfgVal.bool true)
  else cfg

/-- Absolute tolerance of `np.isclose(x, 0.0)` (rtol contributes nothing
against a zero reference). -/
def atol : ℚ := 1 / 100000000

/-- Embeds `np.isclose(x, 0.0)`. -/
def isclose0 (x : ℚ) : Bool := |x| ≤ atol

/-- Mean intensity of one frame, `np.mean(arr[..., idx])`, with the frame
flattened to a voxel list. -/
def frameMean (f : List ℚ) : ℚ := f.sum / f.length

/-- A loaded NIfTI volume: the 4-D data as a list of frames (slices along
the last axis, each flattened to its voxels) plus opaque affine and header
metadata. -/
structure NiftiImage (A H : Type) where
  frames : List (List ℚ)
  affine : A
  header : H

/-- Per-frame body of the `normalize` loop (lib/dwi.py lines 71-74):
`arr[..., idx] *= ref_mean / slice_mean` guarded by
`not np.isclose(slice_mean, 0.0)`. -/
def normalizeFrame (ref : ℚ) (f : List ℚ) : List ℚ :=
  if ¬ isclose0 (frameMean f) then f.map (· * (ref / frameMean f)) else f

/-- Embeds `normalize` (lib/dwi.py lines 62-85): the reference mean is the
mean of frame 0, every frame (frame 0 included) is rescaled by
`ref_mean / slice_mean` unless its mean is close to zero, and the output
image reuses the input's affine and header. -/
def normalize {A H : Type} (nii : NiftiImage A H) : NiftiImage A H :=
  { frames := nii.frames.map (normalizeFrame (frameMean (nii.frames.headD []))),
    affine := nii.affine,
    header := nii.header }

/-- Upper-left 3x3 block `transformation_mat[:3, :3]` of a 4x4 transform. -/
def upperLeft3 (T : Matrix (Fin 4) (Fin 4) ℚ) : Matrix (Fin 3) (Fin 3) ℚ :=
  T.submatrix (Fin.castLE (by omega)) (Fin.castLE (by omega))

/-- Embeds `rotate_bvec` (lib/dwi.py lines 134-160):
`np.dot(transformation_mat[:3, :3], bvec)` on a 3xN b-vector table. -/
def rotate_bvec {n : ℕ} (T : Matrix (Fin 4) (Fin 4) ℚ)
    (bvec : Matrix (Fin 3) (Fin n) ℚ) : Matrix (Fin 3) (Fin n) ℚ :=
  upperLeft3 T * bvec

/-- Concrete 4x4 transform used as a witness input. -/
def sampleTransform : Matrix (Fin 4) (Fin 4) ℚ :=
  Matrix.of ![![1, 2, 3, 4], ![5, 6, 7, 8], ![9, 10, 11, 12], ![13, 14, 15, 16]]

/-- Concrete 3x2 b-vector table with an all-zero second column, used as a
witness input. -/
def sampleBvec : Matrix (Fin 3) (Fin 2) ℚ :=
  Matrix.of ![![1, 0], ![2, 0], ![3, 0]]

/-- Substring containment on character lists, embedding Python's
`needle in part`. -/
def hasSubstr (needle : List Char) : List Char → Bool
  | [] => needle.isEmpty
  | c :: rest => needle.isPrefixOf (c :: rest) || hasSubstr needle rest

/-- Embeds the per-component test `"sub-" in fpath_part` of `save`
(app/utils.py line 73). -/
def containsSub (s : String) : Bool := hasSubstr "sub-".data s.data

/-- A pathlib path: whether it is rooted at `/`, plus its name components
(the root marker itself is not listed; it can never contain `sub-`, so
scanning the component list is equivalent to scanning `Path.parts`). -/
structure PPath where
  absRoot : Bool
  comps : List String
deriving DecidableEq

/-- Embeds `pathlib.Path.joinpath` with a path argument: an absolute
right-hand path replaces the left-hand path entirely. -/
def joinpath (p q : PPath) : PPath :=
  if q.absRoot then q else PPath.mk p.absRoot (p.comps ++ q.comps)

/-- Embeds `out_dir.joinpath(*parts[idx:])`: joining plain relative name
components onto a path. -/
def joinParts (p : PPath) (cs : List String) : PPath :=
  PPath.mk p.absRoot (p.comps ++ cs)

/-- Message of the `ValueError` raised by `save` (app/utils.py lines
77-79); the spec's error taxonomy names this condition
`UnresolvedPathError`. -/
def saveErrMsg : String := "Unable to find relevant file path components to save file."

/-- Embeds the destination-path computation of `save` (app/utils.py lines
71-82): scan the artifact's components for the first one containing
`sub-`; on success the `shutil.copy2` destination is
`out_dir.joinpath(out_fpath)` where `out_fpath = out_dir.joinpath(*parts[idx:])`
(per pathlib, the outer join collapses when `out_fpath` is absolute);
with no matching component the call raises. -/
def saveTarget (file : PPath) (outDir : PPath) : Except String PPath :=
  match file.comps.findIdx? containsSub with
  | some i => Except.ok (joinpath outDir (joinParts outDir (file.comps.drop i)))
  | none => Except.error saveErrMsg

/-- Filesystem contents, as a finite map from destination paths to file
contents. -/
abbrev FS := List (PPath × String)

/-- Overwriting write: `Path.mkdir(parents=True, exist_ok=True)` followed
by `shutil.copy2` never fails on an existing destination and replaces its
content. -/
def fsWrite (fs : FS) (p : PPath) (content : String) : FS :=
  match fs with
  | [] => [(p, content)]
  | (q, c) :: rest =>
    if q = p then (p, content) :: rest else (q, c) :: fsWrite rest p content

/-- Content stored at a destination path. -/
def fsLookup (fs : FS) (p : PPath) : Option String :=
  match fs with
  | [] => none
  | (q, c) :: rest => if q = p then some c else fsLookup rest p

/-- Embeds the single-file branch of `save` (app/utils.py lines 70-82) as a
filesystem transformer: resolve the destination, then create parent
directories with exist-ok semantics and copy, overwriting any existing
file. -/
def save (file : PPath) (content : String) (outDir : PPath) (fs : FS) :
    Except String FS :=
  match saveTarget file outDir with
  | Except.ok t => Except.ok (fsWrite fs t content)
  | Except.error e => Except.error e

/-- Embeds the list branch of `save` (app/utils.py lines 67-69): each file
is saved independently to the same output root, in list order; a raised
error aborts the remainder. -/
def saveList : List (PPath × String) → PPath → FS → Except String FS
  | [], _, fs => Except.ok fs
  | (f, c) :: rest, outDir, fs =>
    match save f c outDir fs with
    | Except.ok fs1 => saveList rest outDir fs1
    | Except.error e => Except.error e

/-- The argument record of one `mrtrix.tckgen` invocation as assembled by
`_tckgen` (workflow/diffusion/tractography.py lines 20-35). -/
structure TckgenCall where
  source : String
  tracks : String
  algorithm : String
  seedDynamic : String
  step : Option ℚ
  cutoff : Option ℚ
  selectCount : Option Nat
  nthreads : Nat
deriving DecidableEq

/-- Embeds the dispatch of `_tckgen` (workflow/diffusion/tractography.py
lines 13-39): method `"wm"` builds the `mrtrix.tckgen` invocation (iFOD2,
dynamically seeded from the FOD volume); `"act"` and every other method
raise `NotImplementedError` before any kernel invocation, which the spec's
error taxonomy names `UnsupportedMethodError`. -/
def tckgenDispatch (method : String) (wmFod tracksName : String) (step cutoff : Option ℚ)
    (streamlines : Option Nat) (threads : Nat) : Except String TckgenCall :=
  match method with
  | "wm" =>
    Except.ok
      (TckgenCall.mk wmFod tracksName "iFOD2" wmFod step cutoff streamlines threads)
  | "act" => Except.error "NotImplementedError"
  | _ => Except.error "NotImplementedError"

theorem allSame_iff (l : List String) :
    allSame l = true ↔ ∀ a ∈ l, ∀ b ∈ l, a = b := by
  cases l with
  | nil => simp [allSame]
  | cons x xs =>
    simp only [allSame, List.all_eq_true, beq_iff_eq, List.mem_cons]
    constructor
    · intro h a ha b hb
      rcases ha with rfl | ha
      · rcases hb with rfl | hb
        · rfl
        · exact (h b hb).symm
      · rcases hb with rfl | hb
        · exact h a ha
        · exact (h a ha).trans (h b hb).symm
    · intro h y hy
      exact h y (Or.inr hy) x (Or.inl rfl)

theorem dedup_length_le_one_iff (l : List String) :
    l.dedup.length ≤ 1 ↔ ∀ a ∈ l, ∀ b ∈ l, a = b := by
  constructor
  · intro h a ha b hb
    have ha' : a ∈ l.dedup := List.mem_dedup.mpr ha
    have hb' : b ∈ l.dedup := List.mem_dedup.mpr hb
    rcases e : l.dedup with _ | ⟨x, xs⟩
    · rw [e] at ha'; simp at ha'
    · rw [e] at h ha' hb'
      have hxs : xs = [] := by
        cases xs with
        | nil => rfl
        | cons y ys => simp at h
      subst hxs
      simp at ha' hb'
      rw [ha', hb']
  · intro h
    cases l with
    | nil => simp
    | cons x xs =>
      have hn : (x :: xs).dedup.Nodup := List.nodup_dedup _
      have hx : ∀ a ∈ (x :: xs).dedup, a = x := by
        intro a ha
        exact h a (List.mem_dedup.mp ha) x (List.mem_cons_self x xs)
      rcases e : (x :: xs).dedup with _ | ⟨y, _ | ⟨z, t⟩⟩
      · simp
      · simp
      · exfalso
        rw [e] at hn hx
        have hy : y = x := hx y (by simp)
        have hz : z = x := hx z (by simp)
        have : y ∉ z :: t := (List.nodup_cons.mp hn).1
        exact this (by rw [hy, hz]; simp)

theorem entryList_emit_length (idx : String) (imsize : List Nat) :
    (entryList (eddyEmitEntry idx imsize)).length = frameCount imsize := by
  unfold eddyEmitEntry frameCount
  split <;> simp [entryList]

theorem entryShape_emit (idx : String) (imsize : List Nat) :
    entryShape (eddyEmitEntry idx imsize) = emitShape imsize := by
  unfold eddyEmitEntry emitShape
  split <;> simp [entryShape]

theorem eddy_entry_flat_length (imsizes : List (List Nat)) :
    ∀ idxs : List String, idxs.length = imsizes.length →
      ((((idxs.zip imsizes).map (fun p => eddyEmitEntry p.1 p.2)).map
        entryList).flatten).length = (imsizes.map frameCount).sum := by
  induction imsizes with
  | nil => intro idxs h; simp
  | cons m ms ih =>
    intro idxs h
    cases idxs with
    | nil => simp at h
    | cons i is =>
      simp only [List.zip_cons_cons, List.map_cons, List.flatten_cons,
        List.length_append, List.sum_cons, entryList_emit_length]
      have := ih is (by simpa using h)
      omega

theorem npArrayFlatten_homog (entries : List EddyEntry)
    (h : ∀ e ∈ entries, ∀ e2 ∈ entries, entryShape e = entryShape e2) :
    npArrayFlatten entries = some ((entries.map entryList).flatten) := by
  cases entries with
  | nil => rfl
  | cons e0 rest =>
    have hall : rest.all (fun e => entryShape e = entryShape e0) = true := by
      rw [List.all_eq_true]
      intro e he
      exact decide_eq_true
        (h e (List.mem_cons_of_mem _ he) e0 (List.mem_cons_self _ _))
    show (if rest.all (fun e => entryShape e = entryShape e0) then
        some (((e0 :: rest).map entryList).flatten) else none) =
      some (((e0 :: rest).map entryList).flatten)
    rw [if_pos hall]

theorem cfgLookup_cfgSet_self (cfg : Cfg) (k : String) (v : CfgVal) :
    cfgLookup (cfgSet cfg k v) k = some v := by
  induction cfg with
  | nil => simp [cfgSet, cfgLookup]
  | cons p rest ih =>
    obtain ⟨k', v'⟩ := p
    by_cases h : k' = k
    · simp [cfgSet, cfgLookup, h]
    · simp [cfgSet, cfgLookup, h, ih]

theorem cfgLookup_cfgSet_ne (cfg : Cfg) (k k' : String) (v : CfgVal) (h : k' ≠ k) :
    cfgLookup (cfgSet cfg k v) k' = cfgLookup cfg k' := by
  induction cfg with
  | nil => simp [cfgSet, cfgLookup, Ne.symm h]
  | cons p rest ih =>
    obtain ⟨k'', v''⟩ := p
    by_cases h2 : k'' = k
    · subst h2
      simp [cfgSet, cfgLookup, h, Ne.symm h]
    · simp only [cfgSet, if_neg h2, cfgLookup]
      by_cases h3 : k'' = k'
      · simp [h3]
      · simp [h3, ih]

theorem denoise_cfg_eq (bval : List ℚ) (cfg : Cfg) (a b : String) :
    (denoise bval cfg a b).2.2 = denoiseCfg1 bval cfg := by
  unfold denoise denoiseCfg1
  by_cases hA : (bval.filter (· ≠ 0)).length < 30
  · rw [if_pos hA]
    show (if cfgLookup (cfgSet cfg skipKey (CfgVal.bool true)) skipKey =
          some (CfgVal.bool true)
        then (a, false, cfgSet cfg skipKey (CfgVal.bool true))
        else (b, true, cfgSet cfg skipKey (CfgVal.bool true))).2.2 =
      cfgSet cfg skipKey (CfgVal.bool true)
    split <;> rfl
  · rw [if_neg hA]
    show (if cfgLookup cfg skipKey = some (CfgVal.bool true)
        then (a, false, cfg) else (b, true, cfg)).2.2 = cfg
    split <;> rfl

theorem sum_map_mul (f : List ℚ) (c : ℚ) : (f.map (· * c)).sum = f.sum * c := by
  induction f with
  | nil => simp
  | cons x xs ih => simp [ih, add_mul]

theorem frameMean_map_mul (f : List ℚ) (c : ℚ) :
    frameMean (f.map (· * c)) = frameMean f * c := by
  simp [frameMean, sum_map_mul, mul_div_right_comm]

theorem isclose0_false_ne_zero (x : ℚ) (h : isclose0 x = false) : x ≠ 0 := by
  intro hx
  rw [hx] at h
  simp [isclose0, atol] at h

theorem normalizeFrame_close (ref : ℚ) (f : List ℚ)
    (h : isclose0 (frameMean f) = true) : normalizeFrame ref f = f := by
  unfold normalizeFrame
  simp [h]

theorem normalizeFrame_far (ref : ℚ) (f : List ℚ)
    (h : isclose0 (frameMean f) = false) :
    normalizeFrame ref f = f.map (· * (ref / frameMean f)) := by
  unfold normalizeFrame
  simp [h]

theorem normalizeFrame_ref_self (f : List ℚ) :
    normalizeFrame (frameMean f) f = f := by
  unfold normalizeFrame
  by_cases h : isclose0 (frameMean f)
  · simp [h]
  · have hne := isclose0_false_ne_zero _ (by simpa using h)
    simp [h, div_self hne]

theorem getD_map_lt {α : Type} (g : α → α) (l : List α) (i : Nat) (d : α)
    (h : i < l.length) : (l.map g).getD i d = g (l.getD i d) := by
  simp [List.getD_eq_getElem?_getD, List.getElem?_map, List.getElem?_eq_getElem h,
    List.getElem?_eq_getElem (by simpa using h : i < (l.map g).length)]

theorem upperLeft3_one : upperLeft3 (1 : Matrix (Fin 4) (Fin 4) ℚ) = 1 := by
  ext i j
  simp only [upperLeft3, Matrix.submatrix_apply, Matrix.one_apply]
  by_cases h : i = j
  · simp [h]
  · rw [if_neg (by simpa [Fin.castLE_inj] using h), if_neg h]

theorem fsLookup_fsWrite_self (fs : FS) (p : PPath) (c : String) :
    fsLookup (fsWrite fs p c) p = some c := by
  induction fs with
  | nil => simp [fsWrite, fsLookup]
  | cons q rest ih =>
    obtain ⟨q1, c1⟩ := q
    by_cases h : q1 = p
    · simp [fsWrite, fsLookup, h]
    · simp [fsWrite, fsLookup, h, ih]

/-- Claim C1: for every ordered list of direction labels, `get_pe_indices`
returns `"1"` repeated once per input when all labels are identical, and
otherwise the 1-based positional indices of the `i`-axis acquisitions when
exactly two such distinct acquisitions exist, falling back to the 1-based
positional indices of the `j`-axis acquisitions; in particular
`["i", "i-"]`, `["j", "j-"]` and `["i", "i-", "j"]` all yield
`["1", "2"]`. -/
theorem pe_grouper_matches_spec (pe_dirs : List String) :
    (allSame pe_dirs = true →
      get_pe_indices pe_dirs = List.replicate pe_dirs.length "1") ∧
    (allSame pe_dirs = false →
      get_pe_indices pe_dirs =
        if (lrIndices pe_dirs).dedup.length = 2 then lrIndices pe_dirs
        else apIndices pe_dirs) ∧
    get_pe_indices ["i", "i-"] = ["1", "2"] ∧
    get_pe_indices ["j", "j-"] = ["1", "2"] ∧
    get_pe_indices ["i", "i-", "j"] = ["1", "2"] := by
  refine ⟨?_, ?_, by decide, by decide, by decide⟩
  · intro h
    have hall := (allSame_iff pe_dirs).mp h
    have hle : pe_dirs.dedup.length ≤ 1 := (dedup_length_le_one_iff pe_dirs).mpr hall
    unfold get_pe_indices
    rw [if_neg (by omega)]
    simp
  · intro h
    have hnall : ¬ (∀ a ∈ pe_dirs, ∀ b ∈ pe_dirs, a = b) := by
      intro hc
      rw [(allSame_iff pe_dirs).mpr hc] at h
      cases h
    have hgt : pe_dirs.dedup.length > 1 := by
      rcases Nat.lt_or_ge 1 pe_dirs.dedup.length with hg | hle
      · exact hg
      · exact absurd ((dedup_length_le_one_iff pe_dirs).mp hle) hnall
    unfold get_pe_indices
    rw [if_pos hgt]
    have hlr : (pe_dirs.map (fun ax => ax.data.head?)).enum.filterMap
        (fun p => if p.2 = some 'i' then some (toString (p.1 + 1)) else none) =
        lrIndices pe_dirs := by
      rw [List.enum_map, List.filterMap_map]
      rfl
    have hap : (pe_dirs.map (fun ax => ax.data.head?)).enum.filterMap
        (fun p => if p.2 = some 'j' then some (toString (p.1 + 1)) else none) =
        apIndices pe_dirs := by
      rw [List.enum_map, List.filterMap_map]
      rfl
    rw [hlr, hap]

/-- Witness for claim C1 at the mixed label list `["i", "i-", "j"]`. -/
theorem pe_grouper_witness :
    allSame ["i", "i-", "j"] = false ∧
    get_pe_indices ["i", "i-", "j"] =
      (if (lrIndices ["i", "i-", "j"]).dedup.length = 2 then lrIndices ["i", "i-", "j"]
       else apIndices ["i", "i-", "j"]) :=
  ⟨by decide, (pe_grouper_matches_spec ["i", "i-", "j"]).2.1 (by decide)⟩

/-- Claim C2 as frozen is false on the code: with one 3-D and one 4-D
acquisition (a per-acquisition index list of matching length), the list
`eddy_idxes` mixes a bare string with a nested list, so
`np.array(eddy_idxes)` raises `ValueError` (inhomogeneous shape) and the
expander emits nothing, not the claimed sum of frame counts (6 here). -/
theorem eddy_claim_counterexample :
    (["1", "2"] : List String).length =
      ([[2, 2, 2], [2, 2, 2, 5]] : List (List Nat)).length ∧
    (([[2, 2, 2], [2, 2, 2, 5]] : List (List Nat)).map frameCount).sum = 6 ∧
    get_eddy_indices [[2, 2, 2], [2, 2, 2, 5]] (some ["1", "2"]) = none := by
  refine ⟨by decide, by decide, by decide⟩

/-- Claim C2 (amended): for every list of input volumes and every
per-acquisition index list (or `None`, meaning index `"1"` per volume),
provided the per-acquisition emissions are shape-homogeneous (all
acquisitions have fewer than 4 dimensions, or all are 4-D with one common
frame count), the expander emits one index per acquisition when the image
has fewer than 4 dimensions and one index per frame otherwise,
concatenated in acquisition order, and the total number of emitted indices
equals the sum of the frame counts of all input volumes. -/
theorem eddy_expander_amended (imsizes : List (List Nat)) (indices : Option (List String))
    (h : indices = none ∨ ∃ l, indices = some l ∧ l.length = imsizes.length)
    (hhom : ∀ m ∈ imsizes, ∀ m2 ∈ imsizes, emitShape m = emitShape m2) :
    (∀ idx imsize, (entryList (eddyEmitEntry idx imsize)).length = frameCount imsize) ∧
    ∃ out, get_eddy_indices imsizes indices = some out ∧
      out.length = (imsizes.map frameCount).sum := by
  refine ⟨entryList_emit_length, ?_⟩
  have key : ∀ idxs : List String, idxs.length = imsizes.length →
      ∃ out,
        npArrayFlatten ((idxs.zip imsizes).map (fun p => eddyEmitEntry p.1 p.2)) =
          some out ∧
        out.length = (imsizes.map frameCount).sum := by
    intro idxs hlen
    have hshapes : ∀ e ∈ (idxs.zip imsizes).map (fun p => eddyEmitEntry p.1 p.2),
        ∀ e2 ∈ (idxs.zip imsizes).map (fun p => eddyEmitEntry p.1 p.2),
        entryShape e = entryShape e2 := by
      intro e he e2 he2
      rcases List.mem_map.mp he with ⟨⟨a1, m1⟩, hp1, rfl⟩
      rcases List.mem_map.mp he2 with ⟨⟨a2, m2⟩, hp2, rfl⟩
      rw [entryShape_emit, entryShape_emit]
      exact hhom m1 (List.of_mem_zip hp1).2 m2 (List.of_mem_zip hp2).2
    exact ⟨_, npArrayFlatten_homog _ hshapes, eddy_entry_flat_length imsizes idxs hlen⟩
  unfold get_eddy_indices
  rcases h with rfl | ⟨l, rfl, hl⟩
  · exact key _ (by simp)
  · by_cases he : l.isEmpty
    · simp only [he, if_pos]
      exact key _ (by simp)
    · simp only [he, if_neg, Bool.false_eq_true, not_false_eq_true]
      exact key _ hl

/-- Witness for the amended claim C2 with two 4-D acquisitions sharing the
frame count 3. -/
theorem eddy_expander_witness :
    ((some ["1", "2"] : Option (List String)) = none ∨
      ∃ l, (some ["1", "2"] : Option (List String)) = some l ∧
        l.length = ([[2, 2, 2, 3], [2, 2, 2, 3]] : List (List Nat)).length) ∧
    (∀ m ∈ ([[2, 2, 2, 3], [2, 2, 2, 3]] : List (List Nat)),
      ∀ m2 ∈ ([[2, 2, 2, 3], [2, 2, 2, 3]] : List (List Nat)),
        emitShape m = emitShape m2) ∧
    (∃ out, get_eddy_indices [[2, 2, 2, 3], [2, 2, 2, 3]] (some ["1", "2"]) = some out ∧
      out.length = (([[2, 2, 2, 3], [2, 2, 2, 3]] : List (List Nat)).map frameCount).sum) :=
  ⟨Or.inr ⟨["1", "2"], rfl, by decide⟩, by decide,
    (eddy_expander_amended [[2, 2, 2, 3], [2, 2, 2, 3]] (some ["1", "2"])
      (Or.inr ⟨["1", "2"], rfl, by decide⟩) (by decide)).2⟩

/-- Claim C3: for every direction label among `i`, `j`, `k` with or without
the trailing sign marker, `get_phenc_info` produces a 4-entry row whose
first three entries form a vector with exactly one nonzero component, of
magnitude 1, on the axis named by the letter, negative exactly when the
label carries the marker, and whose fourth entry is the effective echo
spacing multiplied by the voxel count along that axis. -/
theorem phenc_resolver_spec (c : Char) (neg : Bool) (img_size : List Nat) (eff_echo : ℚ)
    (hc : c = 'i' ∨ c = 'j' ∨ c = 'k') (himg : 3 ≤ img_size.length) :
    ∃ row, get_phenc_info (dirLabel c neg) img_size eff_echo = some row ∧
      row.length = 4 ∧
      row.getD (axisIdx c) 0 = (if neg then (-1 : ℚ) else 1) ∧
      (∀ t, t < 3 → t ≠ axisIdx c → row.getD t 0 = 0) ∧
      row.getD 3 0 = eff_echo * (img_size.getD (axisIdx c) 0 : ℚ) := by
  rcases img_size with _ | ⟨a, _ | ⟨b, _ | ⟨d, rest⟩⟩⟩ <;> simp at himg
  rcases hc with rfl | rfl | rfl <;> cases neg
  · have hax : axisIdx 'i' = 0 := rfl
    refine ⟨[1, 0, 0, eff_echo * (a : ℚ)], ?_, by norm_num, by rw [hax]; norm_num, ?_,
      by rw [hax]; simp⟩
    · simp [get_phenc_info, dirLabel, possible_vecs, negate_pos, phenc_row, List.enum,
        List.getElem_cons_succ, List.getElem_cons_zero, List.enumFrom]
      try exact Or.inl rfl
    · intro t ht hne
      rw [hax] at hne
      interval_cases t <;> simp_all
  · have hax : axisIdx 'i' = 0 := rfl
    refine ⟨[-1, 0, 0, eff_echo * (a : ℚ)], ?_, by norm_num, by rw [hax]; norm_num, ?_,
      by rw [hax]; simp⟩
    · simp [get_phenc_info, dirLabel, possible_vecs, negate_pos, phenc_row, List.enum,
        List.getElem_cons_succ, List.getElem_cons_zero, List.enumFrom]
      try exact Or.inl rfl
    · intro t ht hne
      rw [hax] at hne
      interval_cases t <;> simp_all
  · have hax : axisIdx 'j' = 1 := rfl
    refine ⟨[0, 1, 0, eff_echo * (b : ℚ)], ?_, by norm_num, by rw [hax]; norm_num, ?_,
      by rw [hax]; simp⟩
    · simp [get_phenc_info, dirLabel, possible_vecs, negate_pos, phenc_row, List.enum,
        List.getElem_cons_succ, List.getElem_cons_zero, List.enumFrom]
      try exact Or.inl rfl
    · intro t ht hne
      rw [hax] at hne
      interval_cases t <;> simp_all
  · have hax : axisIdx 'j' = 1 := rfl
    refine ⟨[0, -1, 0, eff_echo * (b : ℚ)], ?_, by norm_num, by rw [hax]; norm_num, ?_,
      by rw [hax]; simp⟩
    · simp [get_phenc_info, dirLabel, possible_vecs, negate_pos, phenc_row, List.enum,
        List.getElem_cons_succ, List.getElem_cons_zero, List.enumFrom]
      try exact Or.inl rfl
    · intro t ht hne
      rw [hax] at hne
      interval_cases t <;> simp_all
  · have hax : axisIdx 'k' = 2 := rfl
    refine ⟨[0, 0, 1, eff_echo * (d : ℚ)], ?_, by norm_num, by rw [hax]; norm_num, ?_,
      by rw [hax]; simp⟩
    · simp [get_phenc_info, dirLabel, possible_vecs, negate_pos, phenc_row, List.enum,
        List.getElem_cons_succ, List.getElem_cons_zero, List.enumFrom]
      try exact Or.inl rfl
    · intro t ht hne
      rw [hax] at hne
      interval_cases t <;> simp_all
  · have hax : axisIdx 'k' = 2 := rfl
    refine ⟨[0, 0, -1, eff_echo * (d : ℚ)], ?_, by norm_num, by rw [hax]; norm_num, ?_,
      by rw [hax]; simp⟩
    · simp [get_phenc_info, dirLabel, possible_vecs, negate_pos, phenc_row, List.enum,
        List.getElem_cons_succ, List.getElem_cons_zero, List.enumFrom]
      try exact Or.inl rfl
    · intro t ht hne
      rw [hax] at hne
      interval_cases t <;> simp_all

/-- Witness for claim C3 at label `j-`, image size `[10, 20, 30]` and echo
spacing `1/2`. -/
theorem phenc_resolver_witness :
    (('j' : Char) = 'i' ∨ ('j' : Char) = 'j' ∨ ('j' : Char) = 'k') ∧
    3 ≤ ([10, 20, 30] : List Nat).length ∧
    (∃ row, get_phenc_info (dirLabel 'j' true) [10, 20, 30] (1 / 2) = some row ∧
      row.length = 4 ∧
      row.getD (axisIdx 'j') 0 = (if true then (-1 : ℚ) else 1) ∧
      (∀ t, t < 3 → t ≠ axisIdx 'j' → row.getD t 0 = 0) ∧
      row.getD 3 0 = (1 / 2 : ℚ) * (([10, 20, 30] : List Nat).getD (axisIdx 'j') 0 : ℚ)) :=
  ⟨Or.inr (Or.inl rfl), by decide,
    phenc_resolver_spec 'j' true [10, 20, 30] (1 / 2) (Or.inr (Or.inl rfl)) (by decide)⟩

/-- Claim C4 as frozen is false on the code: with 30 or more nonzero
b-values but the Config skip flag already set, `denoise` still returns the
input volume without invoking the kernel, while the claim says every input
with 30 or more nonzero b-values runs the kernel. -/
theorem denoise_claim_counterexample :
    ((List.replicate 30 (1 : ℚ)).filter (· ≠ 0)).length = 30 ∧
    denoise (List.replicate 30 (1 : ℚ)) [(skipKey, CfgVal.bool true)] "in.nii.gz"
        "denoised.nii.gz" =
      ("in.nii.gz", false, [(skipKey, CfgVal.bool true)]) := by
  constructor
  · decide
  · decide

/-- Claim C4 (amended): with fewer than 30 nonzero b-values the stage
enters the skip state and returns the input volume unchanged without
invoking the denoising kernel; with 30 or more nonzero b-values and no
explicit configuration request to skip, it runs the kernel and returns the
denoised output. -/
theorem denoise_amended (bval : List ℚ) (cfg : Cfg) (inputNii denoisedOut : String) :
    ((bval.filter (· ≠ 0)).length < 30 →
      denoise bval cfg inputNii denoisedOut =
        (inputNii, false, cfgSet cfg skipKey (CfgVal.bool true))) ∧
    (30 ≤ (bval.filter (· ≠ 0)).length →
      cfgLookup cfg skipKey ≠ some (CfgVal.bool true) →
      denoise bval cfg inputNii denoisedOut = (denoisedOut, true, cfg)) := by
  constructor
  · intro h
    unfold denoise
    rw [if_pos h, if_pos (cfgLookup_cfgSet_self cfg skipKey (CfgVal.bool true))]
  · intro h hskip
    have hA : ¬ ((bval.filter (· ≠ 0)).length < 30) := by omega
    unfold denoise
    rw [if_neg hA, if_neg hskip]

/-- Witness for the amended claim C4: one nonzero b-value forces the skip
state. -/
theorem denoise_amended_witness :
    (((1 : ℚ) :: List.replicate 29 (0 : ℚ)).filter (· ≠ 0)).length < 30 ∧
    denoise ((1 : ℚ) :: List.replicate 29 (0 : ℚ)) [(skipKey, CfgVal.bool false)] "a.nii"
        "b.nii" =
      ("a.nii", false,
        cfgSet [(skipKey, CfgVal.bool false)] skipKey (CfgVal.bool true)) :=
  ⟨by decide,
    (denoise_amended ((1 : ℚ) :: List.replicate 29 (0 : ℚ)) [(skipKey, CfgVal.bool false)]
      "a.nii" "b.nii").1 (by decide)⟩

/-- Claim C5: `normalize` leaves frame 0 unchanged, leaves every frame
whose mean is approximately zero unchanged (no division by a near-zero
mean ever occurs), scales every other frame by the ratio of the frame-0
reference mean to the frame mean so that its mean becomes exactly the
reference mean, and carries the original affine and header through. -/
theorem normalize_spec {A H : Type} (nii : NiftiImage A H) :
    (normalize nii).affine = nii.affine ∧
    (normalize nii).header = nii.header ∧
    (normalize nii).frames.head? = nii.frames.head? ∧
    (normalize nii).frames.length = nii.frames.length ∧
    (∀ i, i < nii.frames.length →
      (isclose0 (frameMean (nii.frames.getD i [])) = true →
        (normalize nii).frames.getD i [] = nii.frames.getD i []) ∧
      (isclose0 (frameMean (nii.frames.getD i [])) = false →
        (normalize nii).frames.getD i [] =
          (nii.frames.getD i []).map
            (· * (frameMean (nii.frames.headD []) / frameMean (nii.frames.getD i []))) ∧
        frameMean ((normalize nii).frames.getD i []) =
          frameMean (nii.frames.headD []))) := by
  refine ⟨rfl, rfl, ?_, by simp [normalize], ?_⟩
  · unfold normalize
    cases hf : nii.frames with
    | nil => simp
    | cons f0 t =>
      simp only [List.map_cons, List.head?_cons, List.headD_cons]
      rw [normalizeFrame_ref_self]
  · intro i hi
    have hmap : (normalize nii).frames.getD i [] =
        normalizeFrame (frameMean (nii.frames.headD [])) (nii.frames.getD i []) :=
      getD_map_lt _ nii.frames i [] hi
    constructor
    · intro hcl
      rw [hmap, normalizeFrame_close _ _ hcl]
    · intro hcl
      have hne := isclose0_false_ne_zero _ hcl
      constructor
      · rw [hmap, normalizeFrame_far _ _ hcl]
      · rw [hmap, normalizeFrame_far _ _ hcl]
        rw [frameMean_map_mul, mul_comm, div_mul_cancel₀ _ hne]

/-- Witness for claim C5: a two-frame volume whose second frame has twice
the reference mean is rescaled to the reference mean. -/
theorem normalize_witness :
    (1 : Nat) < (NiftiImage.mk [[2, 2], [4, 4]] 0 0 : NiftiImage Nat Nat).frames.length ∧
    isclose0 (frameMean ((NiftiImage.mk [[2, 2], [4, 4]] 0 0 :
      NiftiImage Nat Nat).frames.getD 1 [])) = false ∧
    (normalize (NiftiImage.mk [[2, 2], [4, 4]] 0 0 : NiftiImage Nat Nat)).frames.getD 1 [] =
      ((NiftiImage.mk [[2, 2], [4, 4]] 0 0 : NiftiImage Nat Nat).frames.getD 1 []).map
        (· * (frameMean ((NiftiImage.mk [[2, 2], [4, 4]] 0 0 :
          NiftiImage Nat Nat).frames.headD []) /
          frameMean ((NiftiImage.mk [[2, 2], [4, 4]] 0 0 :
            NiftiImage Nat Nat).frames.getD 1 []))) ∧
    frameMean ((normalize (NiftiImage.mk [[2, 2], [4, 4]] 0 0 :
      NiftiImage Nat Nat)).frames.getD 1 []) =
      frameMean ((NiftiImage.mk [[2, 2], [4, 4]] 0 0 : NiftiImage Nat Nat).frames.headD []) :=
  ⟨by decide, by norm_num [isclose0, frameMean, atol],
    ((normalize_spec (NiftiImage.mk [[2, 2], [4, 4]] 0 0 : NiftiImage Nat Nat)).2.2.2.2 1
      (by decide)).2 (by norm_num [isclose0, frameMean, atol])⟩

/-- Claim C6: `rotate_bvec` multiplies the upper-left 3x3 block of the
transform by the b-vector table with no renormalization; consequently a
zero column rotates to a zero column for every transform, and rotating by
the identity transform returns the table unchanged. -/
theorem rotate_bvec_spec {n : ℕ} (T : Matrix (Fin 4) (Fin 4) ℚ)
    (bvec : Matrix (Fin 3) (Fin n) ℚ) (c : Fin n) :
    rotate_bvec T bvec = upperLeft3 T * bvec ∧
    ((∀ i, bvec i c = 0) → ∀ i, rotate_bvec T bvec i c = 0) ∧
    rotate_bvec (1 : Matrix (Fin 4) (Fin 4) ℚ) bvec = bvec := by
  refine ⟨rfl, ?_, ?_⟩
  · intro h i
    unfold rotate_bvec
    rw [Matrix.mul_apply]
    simp [h]
  · unfold rotate_bvec
    rw [upperLeft3_one, Matrix.one_mul]

/-- Witness for claim C6 at a concrete transform and a table with an
all-zero second column. -/
theorem rotate_bvec_witness :
    (∀ i, sampleBvec i 1 = 0) ∧
    (∀ i, rotate_bvec sampleTransform sampleBvec i 1 = 0) ∧
    rotate_bvec (1 : Matrix (Fin 4) (Fin 4) ℚ) sampleBvec = sampleBvec :=
  ⟨by decide, (rotate_bvec_spec sampleTransform sampleBvec 1).2.1 (by decide),
    (rotate_bvec_spec sampleTransform sampleBvec 1).2.2⟩

/-- Claim C7: `saveTarget` mirrors everything from the first path component
containing `sub-` onward under the output root (for an absolute root, as in
the claim's example), persists `/work/sub-01/dwi/file.nii.gz` under root
`/out` to `/out/sub-01/dwi/file.nii.gz`, and fails with the unresolved-path
error when no component contains `sub-`. -/
theorem save_path_spec (file outDir : PPath) (i : Nat) (habs : outDir.absRoot = true) :
    (file.comps.findIdx? containsSub = some i →
      saveTarget file outDir =
        Except.ok (PPath.mk true (outDir.comps ++ file.comps.drop i))) ∧
    (file.comps.findIdx? containsSub = none →
      saveTarget file outDir = Except.error saveErrMsg) ∧
    saveTarget (PPath.mk true ["work", "sub-01", "dwi", "file.nii.gz"])
        (PPath.mk true ["out"]) =
      Except.ok (PPath.mk true ["out", "sub-01", "dwi", "file.nii.gz"]) := by
  refine ⟨?_, ?_, rfl⟩
  · intro h
    unfold saveTarget
    rw [h]
    unfold joinpath joinParts
    simp [habs]
  · intro h
    unfold saveTarget
    rw [h]

/-- Witness for claim C7 at a concrete working path with a `sub-` component
in position 1. -/
theorem save_path_witness :
    (PPath.mk true ["w", "sub-02", "a.nii"]).comps.findIdx? containsSub = some 1 ∧
    (PPath.mk true ["out"]).absRoot = true ∧
    saveTarget (PPath.mk true ["w", "sub-02", "a.nii"]) (PPath.mk true ["out"]) =
      Except.ok (PPath.mk true (["out"] ++ ["w", "sub-02", "a.nii"].drop 1)) :=
  ⟨by decide, rfl,
    (save_path_spec (PPath.mk true ["w", "sub-02", "a.nii"]) (PPath.mk true ["out"]) 1
      rfl).1 (by decide)⟩

/-- Claim C8: every method other than `wm` (in particular `act`) makes the
tractography dispatch fail before any kernel invocation, and method `wm`
produces the iFOD2 streamline-generator invocation seeded dynamically from
the FOD volume. -/
theorem tckgen_dispatch_spec (method wmFod tracksName : String) (step cutoff : Option ℚ)
    (streamlines : Option Nat) (threads : Nat) :
    (method ≠ "wm" →
      tckgenDispatch method wmFod tracksName step cutoff streamlines threads =
        Except.error "NotImplementedError") ∧
    tckgenDispatch "wm" wmFod tracksName step cutoff streamlines threads =
      Except.ok
        (TckgenCall.mk wmFod tracksName "iFOD2" wmFod step cutoff streamlines threads) := by
  constructor
  · intro h
    unfold tckgenDispatch
    split <;> simp_all
  · rfl

/-- Witness for claim C8 at the declared-but-unimplemented method `act`. -/
theorem tckgen_dispatch_witness :
    ("act" : String) ≠ "wm" ∧
    tckgenDispatch "act" "fod.mif" "trk.tck" none none (some 1000) 4 =
      Except.error "NotImplementedError" :=
  ⟨by decide,
    (tckgen_dispatch_spec "act" "fod.mif" "trk.tck" none none (some 1000) 4).1
      (by decide)⟩

/-- Claim C9 as frozen is false on the code: the denoise stage writes the
Config key `participant.preprocess.denoise.skip` when fewer than 30
b-values are nonzero, so the Config mapping passed in is changed by the
call. -/
theorem config_readonly_counterexample :
    (denoise [(1 : ℚ)] [(skipKey, CfgVal.bool false)] "a.nii" "b.nii").2.2 ≠
      [(skipKey, CfgVal.bool false)] := by
  decide

/-- Claim C9 (amended): the Config mapping is unchanged by the denoise
stage except for its denoise-skip key, which is set to true exactly when
fewer than 30 b-values are nonzero; every other key reads the same after
the call, and with 30 or more nonzero b-values the Config is returned
entirely unchanged. -/
theorem config_mutation_amended (bval : List ℚ) (cfg : Cfg) (a b : String) :
    (∀ k, k ≠ skipKey → cfgLookup ((denoise bval cfg a b).2.2) k = cfgLookup cfg k) ∧
    (30 ≤ (bval.filter (· ≠ 0)).length → (denoise bval cfg a b).2.2 = cfg) ∧
    ((bval.filter (· ≠ 0)).length < 30 →
      (denoise bval cfg a b).2.2 = cfgSet cfg skipKey (CfgVal.bool true)) := by
  rw [denoise_cfg_eq]
  unfold denoiseCfg1
  refine ⟨?_, ?_, ?_⟩
  · intro k hk
    by_cases hA : (bval.filter (· ≠ 0)).length < 30
    · rw [if_pos hA]
      exact cfgLookup_cfgSet_ne cfg skipKey k _ hk
    · rw [if_neg hA]
  · intro h
    rw [if_neg (by omega)]
  · intro h
    rw [if_pos h]

/-- Witness for the amended claim C9: a single nonzero b-value makes the
denoise stage set the skip key on an empty Config. -/
theorem config_mutation_witness :
    (([(1 : ℚ)].filter (· ≠ 0)).length < 30) ∧
    (denoise [(1 : ℚ)] [] "a.nii" "b.nii").2.2 =
      cfgSet [] skipKey (CfgVal.bool true) :=
  ⟨by decide, (config_mutation_amended [(1 : ℚ)] [] "a.nii" "b.nii").2.2 (by decide)⟩

/-- Claim C10: persisting an artifact whose destination resolves never
fails even when the destination already exists; re-running `save` for the
same artifact and output root succeeds and leaves the destination with the
latest content, and a list of artifacts is persisted element by element to
the same output root in list order. -/
theorem save_overwrite_spec (file : PPath) (c1 c2 : String) (outDir : PPath) (fs : FS)
    (t : PPath) (h : saveTarget file outDir = Except.ok t) :
    (∃ fs1, save file c1 outDir fs = Except.ok fs1 ∧
      ∃ fs2, save file c2 outDir fs1 = Except.ok fs2 ∧ fsLookup fs2 t = some c2) ∧
    (∀ x : PPath × String, ∀ rest : List (PPath × String), ∀ fs0 : FS,
      saveList (x :: rest) outDir fs0 =
        match save x.1 x.2 outDir fs0 with
        | Except.ok fs1 => saveList rest outDir fs1
        | Except.error e => Except.error e) := by
  constructor
  · refine ⟨fsWrite fs t c1, ?_, fsWrite (fsWrite fs t c1) t c2, ?_,
      fsLookup_fsWrite_self _ _ _⟩
    · unfold save
      rw [h]
    · unfold save
      rw [h]
  · intro x rest fs0
    obtain ⟨f, c⟩ := x
    rfl

/-- Witness for claim C10: saving the same artifact twice on an empty
filesystem succeeds and stores the latest content. -/
theorem save_overwrite_witness :
    saveTarget (PPath.mk true ["w", "sub-03", "x.nii"]) (PPath.mk true ["out"]) =
      Except.ok (PPath.mk true ["out", "sub-03", "x.nii"]) ∧
    (∃ fs1, save (PPath.mk true ["w", "sub-03", "x.nii"]) "v1" (PPath.mk true ["out"])
        [] = Except.ok fs1 ∧
      ∃ fs2, save (PPath.mk true ["w", "sub-03", "x.nii"]) "v2" (PPath.mk true ["out"])
          fs1 = Except.ok fs2 ∧
        fsLookup fs2 (PPath.mk true ["out", "sub-03", "x.nii"]) = some "v2") :=
  ⟨rfl,
    (save_overwrite_spec (PPath.mk true ["w", "sub-03", "x.nii"]) "v1" "v2"
      (PPath.mk true ["out"]) [] (PPath.mk true ["out", "sub-03", "x.nii"]) rfl).1⟩

end NhpDwiproc
